import Mathlib

/-!
Shallow embedding of `src/qr_scanner.py` (functions `scan_qr_codes` and
`test_camera`) and proofs about its deduplication / debounce / drawing /
error-handling behaviour.

Modelling decisions, all read off from the source:
* `time.time()` returns wall-clock seconds; we model an instant as a rational
  number `Time := ℚ`.  Each decoded object carries the instant the clock would
  return when the scanner examines it (the `current_time = time.time()` call on
  line 54 of the source).
* The camera, the pyzbar decoder, the quit key, `cv2.convexHull` and
  `cv2.polylines` are external: a scan session is modelled by the list of
  per-iteration inputs (`FrameInput`), and the drawing calls are recorded as
  events carrying which branch ran (hull vs. raw polygon) and the raw points.
* The optional `update_callback` may raise; Python's `try/except` on lines
  63-68 is modelled by the callback returning `Except`, with both outcomes
  continuing the scan and the outcome recorded in the event trace.
-/

/-- A wall-clock instant, as returned by `time.time()` (seconds since epoch). -/
abbrev Time := ℚ

/-- A 2-D pixel coordinate of a detected polygon vertex (pyzbar returns
integer pixel coordinates `p.x`, `p.y`). -/
structure Point where
  x : Int
  y : Int
deriving DecidableEq

/-- One decoded object returned by `pyzbar.decode` for a frame: its decoded
text `data` (line 50), its boundary `polygon` (line 74), and the instant `t`
that `time.time()` returns when the scanner examines this object (line 54). -/
structure DecodedObj where
  data : String
  polygon : List Point
  t : Time
deriving DecidableEq

/-- One iteration of the `while True` loop, as seen from outside: whether
`cap.read()` succeeded (line 41), the objects `pyzbar.decode` finds in the
frame (line 47), and whether the quit key is pressed this iteration
(line 94). -/
structure FrameInput where
  readOk : Bool
  objs : List DecodedObj
  quit : Bool

/-- The mutable scanner state of `scan_qr_codes` (lines 34-36).  The Python
`set` `scanned_codes` is modelled by a list used only through membership. -/
structure ScanState where
  scanned_codes : List String
  last_scan_time : Time
  newly_scanned_data : List String
deriving DecidableEq

/-- The initial scanner state (lines 34-36): empty seen set,
`last_scan_time = 0`, empty result list. -/
def initState : ScanState := ⟨[], 0, []⟩

/-- Observable effects emitted while scanning. -/
inductive Event where
  /-- Entry into the acceptance branch (lines 57-59): the
  `New QR Code Detected` log for `data`, carrying the `current_time` in
  force (the value stored into `last_scan_time` on line 71). -/
  | accept (data : String) (t : Time)
  /-- The `update_callback data` invocation (line 65); `raised` records
  whether it raised (the exception is caught on line 67 and only logged). -/
  | callback (data : String) (raised : Bool)
  /-- The `play_beep()` call (line 70). -/
  | beep
  /-- A `cv2.polylines` call (lines 76-84): `isHull` is `true` when the
  convex-hull branch ran (strictly more than 4 boundary points, line 76),
  `false` when the raw polygon was drawn; `pts` are the detector's points. -/
  | draw (isHull : Bool) (pts : List Point)
deriving DecidableEq

/-- The optional `update_callback` argument of `scan_qr_codes`; a present
callback may raise (`Except.error`). -/
abbrev Callback := Option (String → Except String Unit)

/-- The draw event the body of the `for` loop emits for `obj`
(lines 74-84): convex hull when the detector returned more than 4 boundary
points, otherwise the raw polygon. -/
def drawEventFor (obj : DecodedObj) : Event :=
  if obj.polygon.length > 4 then .draw true obj.polygon
  else .draw false obj.polygon

/-- One pass of the `for obj in decoded_objects` body (lines 49-84):
dedup/debounce decision, state update, callback, beep, and the unconditional
polygon draw. -/
def processObj (update_callback : Callback) (s : ScanState) (obj : DecodedObj) :
    ScanState × List Event :=
  let step :=
    if obj.data ∈ s.scanned_codes then (s, ([] : List Event))
    else
      let current_time := obj.t
      if current_time - s.last_scan_time > 2 then
        let cbEvs : List Event :=
          match update_callback with
          | none => []
          | some f =>
            match f obj.data with
            | .ok _ => [.callback obj.data false]
            | .error _ => [.callback obj.data true]
        (⟨obj.data :: s.scanned_codes,
          current_time,
          s.newly_scanned_data ++ [obj.data]⟩,
         .accept obj.data current_time :: cbEvs ++ [.beep])
      else (s, [])
  (step.1, step.2 ++ [drawEventFor obj])

/-- The whole `for obj in decoded_objects` loop over one frame's decoded
objects (lines 49-84). -/
def processObjs (cb : Callback) (s : ScanState) : List DecodedObj → ScanState × List Event
  | [] => (s, [])
  | obj :: rest =>
    let r1 := processObj cb s obj
    let r2 := processObjs cb r1.1 rest
    (r2.1, r1.2 ++ r2.2)

/-- The `while True` loop (lines 39-95): a failed `cap.read()` breaks out at
once (lines 42-44, before the frame is processed); otherwise the frame's
objects are processed and the quit key is checked afterwards (line 94).  An
exhausted input list behaves like a failing read: the loop stops. -/
def scanLoop (cb : Callback) (s : ScanState) : List FrameInput → ScanState × List Event
  | [] => (s, [])
  | f :: rest =>
    if f.readOk then
      let r1 := processObjs cb s f.objs
      if f.quit then r1
      else
        let r2 := scanLoop cb r1.1 rest
        (r2.1, r1.2 ++ r2.2)
    else (s, [])

/-- The function `scan_qr_codes` (lines 15-101): returns `[]` at once when
the camera does not open (lines 25-27), otherwise runs the loop from the
initial state and returns the accumulated `newly_scanned_data`
(line 101). -/
def scan_qr_codes (camOpened : Bool) (cb : Callback) (frames : List FrameInput) :
    List String :=
  if camOpened then (scanLoop cb initState frames).1.newly_scanned_data
  else []

/-- The event trace of a scan session (empty when the camera did not open). -/
def scanEvents (camOpened : Bool) (cb : Callback) (frames : List FrameInput) :
    List Event :=
  if camOpened then (scanLoop cb initState frames).2 else []

/-- The acceptance events of a trace, each with the `current_time` in force
when it was accepted. -/
def acceptEvents : List Event → List (String × Time)
  | [] => []
  | .accept d t :: rest => (d, t) :: acceptEvents rest
  | _ :: rest => acceptEvents rest

/-- The draw events of a trace, in order. -/
def drawEvents : List Event → List Event
  | [] => []
  | .draw h pts :: rest => .draw h pts :: drawEvents rest
  | _ :: rest => drawEvents rest

/-- The external behaviour of the camera during `test_camera`'s probe:
whether `cv2.VideoCapture(0)` raises, whether `cap.isOpened()` holds,
whether `cap.read()` raises, and otherwise the `(ret, frame)` it returns
(`frame = none` models Python's `None`). -/
structure CamProbe where
  openRaises : Bool
  isOpened : Bool
  readRaises : Bool
  ret : Bool
  frame : Option Unit

/-- The function `test_camera` (lines 103-120): first component is the
returned boolean, second records whether `cap.release()` (line 114) was
reached.  The `except` clause (lines 118-120) turns any raise into `false`;
`if not cap.isOpened(): return False` (lines 110-111) returns before any
release. -/
def test_camera (p : CamProbe) : Bool × Bool :=
  if p.openRaises then (false, false)
  else if !p.isOpened then (false, false)
  else if p.readRaises then (false, false)
  else (p.ret && p.frame.isSome, true)

/-- Later states extend earlier ones: the seen set only grows, and the result
list only grows at its right end, by codes that were not yet in the earlier
seen set. -/
def StateExtends (s s' : ScanState) : Prop :=
  (∀ a, a ∈ s.scanned_codes → a ∈ s'.scanned_codes) ∧
    ∃ l, s'.newly_scanned_data = s.newly_scanned_data ++ l ∧
      ∀ a ∈ l, a ∉ s.scanned_codes

/-- The session invariant behind the no-re-acceptance property: the result
list has no duplicates and every reported code is in the seen set. -/
def GoodState (s : ScanState) : Prop :=
  s.newly_scanned_data.Nodup ∧ ∀ a ∈ s.newly_scanned_data, a ∈ s.scanned_codes

/-- Timestamps `ts` form a debounce chain from baseline `L`: each is more
than 2 seconds after its predecessor (the baseline for the first). -/
def debounceChain (L : Time) : List Time → Prop
  | [] => True
  | t :: ts => L + 2 < t ∧ debounceChain t ts

/-- The last element of `ts`, or the baseline `L` when `ts` is empty. -/
def lastTimeD (L : Time) : List Time → Time
  | [] => L
  | t :: ts => lastTimeD t ts

/-- Concrete session for the exact-2-second counterexample: code A at
t = 3 s, code B at t = 5 s, in the same frame. -/
def ceObjA : DecodedObj := ⟨"A", [], 3⟩

/-- Second code of the exact-2-second counterexample session. -/
def ceObjB : DecodedObj := ⟨"B", [], 5⟩

/-- The frame sequence of the exact-2-second counterexample session. -/
def ceFrames : List FrameInput := [⟨true, [ceObjA, ceObjB], true⟩]

/-- The scanner state in force when `ceObjB` is examined (after the
acceptance of `ceObjA`). -/
def ceStateB : ScanState := (processObj none initState ceObjA).1

/-- Concrete session for the mid-session read-failure counterexample: code A
is accepted from the first frame, then the second frame read fails. -/
def rfFrames : List FrameInput := [⟨true, [⟨"A", [], 3⟩], false⟩, ⟨false, [], false⟩]

/-! Helper lemmas about the embedding, followed by the claim theorems. -/

/-- The draw event for `obj`, with the branch condition made explicit. -/
theorem drawEventFor_eq (obj : DecodedObj) :
    drawEventFor obj = .draw (decide (obj.polygon.length > 4)) obj.polygon := by
  unfold drawEventFor
  split <;> simp_all

/-- Acceptance events distribute over trace concatenation. -/
theorem acceptEvents_append (l₁ l₂ : List Event) :
    acceptEvents (l₁ ++ l₂) = acceptEvents l₁ ++ acceptEvents l₂ := by
  induction l₁ with
  | nil => rfl
  | cons e rest ih => cases e <;> simp [acceptEvents, ih]

/-- Draw events distribute over trace concatenation. -/
theorem drawEvents_append (l₁ l₂ : List Event) :
    drawEvents (l₁ ++ l₂) = drawEvents l₁ ++ drawEvents l₂ := by
  induction l₁ with
  | nil => rfl
  | cons e rest ih => cases e <;> simp [drawEvents, ih]

/-- A rejected detection (already seen, or debounce window not yet elapsed)
leaves the state unchanged and emits only the polygon draw. -/
theorem processObj_reject (cb : Callback) (s : ScanState) (obj : DecodedObj)
    (h : obj.data ∈ s.scanned_codes ∨ ¬ obj.t - s.last_scan_time > 2) :
    processObj cb s obj = (s, [drawEventFor obj]) := by
  unfold processObj
  rcases h with h | h
  · simp [h]
  · by_cases hm : obj.data ∈ s.scanned_codes <;> simp [hm, h]

/-- An accepted detection (fresh code, debounce window elapsed) adds the code
to the seen set, appends it to the result list, stamps `last_scan_time`, and
its trace has exactly one acceptance and exactly one draw. -/
theorem processObj_accept (cb : Callback) (s : ScanState) (obj : DecodedObj)
    (h₁ : obj.data ∉ s.scanned_codes) (h₂ : obj.t - s.last_scan_time > 2) :
    (processObj cb s obj).1 =
      ⟨obj.data :: s.scanned_codes, obj.t, s.newly_scanned_data ++ [obj.data]⟩ ∧
    acceptEvents (processObj cb s obj).2 = [(obj.data, obj.t)] ∧
    drawEvents (processObj cb s obj).2 = [drawEventFor obj] := by
  unfold processObj
  simp only [h₁, if_neg, if_pos h₂, ite_false, ite_true]
  refine ⟨by simp [h₁, h₂], ?_, ?_⟩ <;>
    cases cb with
    | none => simp [h₁, h₂, acceptEvents, drawEvents, drawEventFor_eq]
    | some f =>
      rcases hf : f obj.data with v | e <;>
        simp [h₁, h₂, hf, acceptEvents, drawEvents, drawEventFor_eq]

/-- Case analysis on the state component of one detection: either nothing
changed, or the (previously unseen) code was recorded and the timestamp
updated. -/
theorem processObj_state_cases (cb : Callback) (s : ScanState) (obj : DecodedObj) :
    (processObj cb s obj).1 = s ∨
      ((processObj cb s obj).1 =
          ⟨obj.data :: s.scanned_codes, obj.t, s.newly_scanned_data ++ [obj.data]⟩ ∧
        obj.data ∉ s.scanned_codes ∧ obj.t - s.last_scan_time > 2) := by
  by_cases hm : obj.data ∈ s.scanned_codes
  · exact Or.inl (by rw [processObj_reject cb s obj (Or.inl hm)])
  by_cases ht : obj.t - s.last_scan_time > 2
  · exact Or.inr ⟨(processObj_accept cb s obj hm ht).1, hm, ht⟩
  · exact Or.inl (by rw [processObj_reject cb s obj (Or.inr ht)])

theorem stateExtends_refl (s : ScanState) : StateExtends s s :=
  ⟨fun _ h => h, [], by simp⟩

theorem stateExtends_trans {s₁ s₂ s₃ : ScanState}
    (h₁ : StateExtends s₁ s₂) (h₂ : StateExtends s₂ s₃) : StateExtends s₁ s₃ := by
  obtain ⟨hm₁, l₁, he₁, hl₁⟩ := h₁
  obtain ⟨hm₂, l₂, he₂, hl₂⟩ := h₂
  refine ⟨fun a ha => hm₂ a (hm₁ a ha), l₁ ++ l₂, by simp [he₂, he₁], ?_⟩
  intro a ha
  rcases List.mem_append.mp ha with h | h
  · exact hl₁ a h
  · exact fun hc => hl₂ a h (hm₁ a hc)

theorem processObj_stateExtends (cb : Callback) (s : ScanState) (obj : DecodedObj) :
    StateExtends s (processObj cb s obj).1 := by
  rcases processObj_state_cases cb s obj with h | ⟨h, hm, _⟩
  · rw [h]; exact stateExtends_refl s
  · rw [h]
    exact ⟨fun a ha => by simp [ha], [obj.data], rfl, by simpa using hm⟩

theorem processObjs_stateExtends (cb : Callback) (objs : List DecodedObj) (s : ScanState) :
    StateExtends s (processObjs cb s objs).1 := by
  induction objs generalizing s with
  | nil => exact stateExtends_refl s
  | cons obj rest ih =>
    exact stateExtends_trans (processObj_stateExtends cb s obj)
      (ih (processObj cb s obj).1)

theorem scanLoop_stateExtends (cb : Callback) (frames : List FrameInput) (s : ScanState) :
    StateExtends s (scanLoop cb s frames).1 := by
  induction frames generalizing s with
  | nil => exact stateExtends_refl s
  | cons f rest ih =>
    by_cases hr : f.readOk
    · by_cases hq : f.quit
      · simpa [scanLoop, hr, hq] using processObjs_stateExtends cb f.objs s
      · simp only [scanLoop, hr, hq, if_true, if_false]
        exact stateExtends_trans (processObjs_stateExtends cb f.objs s)
          (ih (processObjs cb s f.objs).1)
    · simpa [scanLoop, hr] using stateExtends_refl s

theorem processObj_goodState {s : ScanState} (cb : Callback) (obj : DecodedObj)
    (h : GoodState s) : GoodState (processObj cb s obj).1 := by
  obtain ⟨hnd, hmem⟩ := h
  rcases processObj_state_cases cb s obj with hc | ⟨hc, hm, _⟩
  · rw [hc]; exact ⟨hnd, hmem⟩
  · rw [hc]
    constructor
    · refine List.Nodup.append hnd (List.nodup_singleton obj.data) ?_
      intro a ha hb
      rw [List.mem_singleton.mp hb] at ha
      exact hm (hmem obj.data ha)
    · intro a ha
      rcases List.mem_append.mp ha with h | h
      · exact List.mem_cons_of_mem _ (hmem a h)
      · simp [List.mem_singleton.mp h]

theorem processObjs_goodState {s : ScanState} (cb : Callback) (objs : List DecodedObj)
    (h : GoodState s) : GoodState (processObjs cb s objs).1 := by
  induction objs generalizing s with
  | nil => exact h
  | cons obj rest ih => exact ih (processObj_goodState cb obj h)

theorem scanLoop_goodState {s : ScanState} (cb : Callback) (frames : List FrameInput)
    (h : GoodState s) : GoodState (scanLoop cb s frames).1 := by
  induction frames generalizing s with
  | nil => exact h
  | cons f rest ih =>
    by_cases hr : f.readOk
    · by_cases hq : f.quit
      · simpa [scanLoop, hr, hq] using processObjs_goodState cb f.objs h
      · simp only [scanLoop, hr, hq, if_true, if_false]
        exact ih (processObjs_goodState cb f.objs h)
    · simpa [scanLoop, hr] using h

theorem debounceChain_append (L : Time) (l₁ l₂ : List Time) :
    debounceChain L (l₁ ++ l₂) ↔
      debounceChain L l₁ ∧ debounceChain (lastTimeD L l₁) l₂ := by
  induction l₁ generalizing L with
  | nil => simp [debounceChain, lastTimeD]
  | cons t ts ih => simp [debounceChain, lastTimeD, ih, and_assoc]

theorem lastTimeD_append (L : Time) (l₁ l₂ : List Time) :
    lastTimeD L (l₁ ++ l₂) = lastTimeD (lastTimeD L l₁) l₂ := by
  induction l₁ generalizing L with
  | nil => rfl
  | cons t ts ih => simp [lastTimeD, ih]

theorem debounceChain_lt_all {L : Time} {ts : List Time}
    (h : debounceChain L ts) : ∀ t ∈ ts, L + 2 < t := by
  induction ts generalizing L with
  | nil => simp
  | cons t rest ih =>
    obtain ⟨h₁, h₂⟩ := h
    intro x hx
    rcases List.mem_cons.mp hx with rfl | hx
    · exact h₁
    · have := ih h₂ x hx
      linarith

theorem debounceChain_pairwise {L : Time} {ts : List Time}
    (h : debounceChain L ts) : List.Pairwise (fun a b => a + 2 < b) ts := by
  induction ts generalizing L with
  | nil => exact List.Pairwise.nil
  | cons t rest ih =>
    obtain ⟨_, h₂⟩ := h
    exact List.Pairwise.cons (debounceChain_lt_all h₂) (ih h₂)

/-- The acceptance timestamps of one detection form a debounce chain from the
incoming `last_scan_time`, which the outgoing `last_scan_time` closes. -/
theorem processObj_debounceChain (cb : Callback) (s : ScanState) (obj : DecodedObj) :
    debounceChain s.last_scan_time
        ((acceptEvents (processObj cb s obj).2).map Prod.snd) ∧
      (processObj cb s obj).1.last_scan_time =
        lastTimeD s.last_scan_time
          ((acceptEvents (processObj cb s obj).2).map Prod.snd) := by
  by_cases hm : obj.data ∈ s.scanned_codes
  · rw [processObj_reject cb s obj (Or.inl hm), drawEventFor_eq]
    simp [acceptEvents, debounceChain, lastTimeD]
  by_cases ht : obj.t - s.last_scan_time > 2
  · obtain ⟨hs, ha, _⟩ := processObj_accept cb s obj hm ht
    rw [hs, ha]
    exact ⟨⟨by linarith, trivial⟩, rfl⟩
  · rw [processObj_reject cb s obj (Or.inr ht), drawEventFor_eq]
    simp [acceptEvents, debounceChain, lastTimeD]

theorem processObjs_debounceChain (cb : Callback) (objs : List DecodedObj) (s : ScanState) :
    debounceChain s.last_scan_time
        ((acceptEvents (processObjs cb s objs).2).map Prod.snd) ∧
      (processObjs cb s objs).1.last_scan_time =
        lastTimeD s.last_scan_time
          ((acceptEvents (processObjs cb s objs).2).map Prod.snd) := by
  induction objs generalizing s with
  | nil => exact ⟨trivial, rfl⟩
  | cons obj rest ih =>
    obtain ⟨hc₁, hl₁⟩ := processObj_debounceChain cb s obj
    obtain ⟨hc₂, hl₂⟩ := ih (processObj cb s obj).1
    have hsplit : (processObjs cb s (obj :: rest)).2 =
        (processObj cb s obj).2 ++ (processObjs cb (processObj cb s obj).1 rest).2 := rfl
    have hstate : (processObjs cb s (obj :: rest)).1 =
        (processObjs cb (processObj cb s obj).1 rest).1 := rfl
    rw [hsplit, hstate, acceptEvents_append, List.map_append, debounceChain_append,
      lastTimeD_append, ← hl₁]
    exact ⟨⟨hc₁, hc₂⟩, hl₂⟩

theorem scanLoop_debounceChain (cb : Callback) (frames : List FrameInput) (s : ScanState) :
    debounceChain s.last_scan_time
        ((acceptEvents (scanLoop cb s frames).2).map Prod.snd) ∧
      (scanLoop cb s frames).1.last_scan_time =
        lastTimeD s.last_scan_time
          ((acceptEvents (scanLoop cb s frames).2).map Prod.snd) := by
  induction frames generalizing s with
  | nil => exact ⟨trivial, rfl⟩
  | cons f rest ih =>
    by_cases hr : f.readOk
    · by_cases hq : f.quit
      · simpa [scanLoop, hr, hq] using processObjs_debounceChain cb f.objs s
      · obtain ⟨hc₁, hl₁⟩ := processObjs_debounceChain cb f.objs s
        obtain ⟨hc₂, hl₂⟩ := ih (processObjs cb s f.objs).1
        have hsplit : (scanLoop cb s (f :: rest)).2 =
            (processObjs cb s f.objs).2 ++
              (scanLoop cb (processObjs cb s f.objs).1 rest).2 := by
          simp [scanLoop, hr, hq]
        have hstate : (scanLoop cb s (f :: rest)).1 =
            (scanLoop cb (processObjs cb s f.objs).1 rest).1 := by
          simp [scanLoop, hr, hq]
        rw [hsplit, hstate, acceptEvents_append, List.map_append, debounceChain_append,
          lastTimeD_append, ← hl₁]
        exact ⟨⟨hc₁, hc₂⟩, hl₂⟩
    · simp only [scanLoop, hr, if_false, Bool.false_eq_true]
      exact ⟨trivial, rfl⟩

/-- The state evolution and the acceptance events never depend on which
callback is installed, nor on whether its invocations raise. -/
theorem processObj_callback_irrelevant (cb₁ cb₂ : Callback) (s : ScanState)
    (obj : DecodedObj) :
    (processObj cb₁ s obj).1 = (processObj cb₂ s obj).1 ∧
      acceptEvents (processObj cb₁ s obj).2 = acceptEvents (processObj cb₂ s obj).2 ∧
      drawEvents (processObj cb₁ s obj).2 = drawEvents (processObj cb₂ s obj).2 := by
  by_cases hm : obj.data ∈ s.scanned_codes
  · rw [processObj_reject cb₁ s obj (Or.inl hm), processObj_reject cb₂ s obj (Or.inl hm)]
    exact ⟨rfl, rfl, rfl⟩
  by_cases ht : obj.t - s.last_scan_time > 2
  · obtain ⟨hs₁, ha₁, hd₁⟩ := processObj_accept cb₁ s obj hm ht
    obtain ⟨hs₂, ha₂, hd₂⟩ := processObj_accept cb₂ s obj hm ht
    exact ⟨hs₁.trans hs₂.symm, ha₁.trans ha₂.symm, hd₁.trans hd₂.symm⟩
  · rw [processObj_reject cb₁ s obj (Or.inr ht), processObj_reject cb₂ s obj (Or.inr ht)]
    exact ⟨rfl, rfl, rfl⟩

theorem processObjs_callback_irrelevant (cb₁ cb₂ : Callback) (objs : List DecodedObj)
    (s : ScanState) :
    (processObjs cb₁ s objs).1 = (processObjs cb₂ s objs).1 ∧
      acceptEvents (processObjs cb₁ s objs).2 = acceptEvents (processObjs cb₂ s objs).2 := by
  induction objs generalizing s with
  | nil => exact ⟨rfl, rfl⟩
  | cons obj rest ih =>
    obtain ⟨hs, ha, _⟩ := processObj_callback_irrelevant cb₁ cb₂ s obj
    have hsplit₁ : (processObjs cb₁ s (obj :: rest)).2 =
        (processObj cb₁ s obj).2 ++ (processObjs cb₁ (processObj cb₁ s obj).1 rest).2 := rfl
    have hsplit₂ : (processObjs cb₂ s (obj :: rest)).2 =
        (processObj cb₂ s obj).2 ++ (processObjs cb₂ (processObj cb₂ s obj).1 rest).2 := rfl
    obtain ⟨ihs, iha⟩ := ih (processObj cb₁ s obj).1
    have hstate₁ : (processObjs cb₁ s (obj :: rest)).1 =
        (processObjs cb₁ (processObj cb₁ s obj).1 rest).1 := rfl
    have hstate₂ : (processObjs cb₂ s (obj :: rest)).1 =
        (processObjs cb₂ (processObj cb₂ s obj).1 rest).1 := rfl
    constructor
    · rw [hstate₁, hstate₂, ihs, hs]
    · rw [hsplit₁, hsplit₂, acceptEvents_append, acceptEvents_append, ha, iha, hs]

theorem scanLoop_callback_irrelevant (cb₁ cb₂ : Callback) (frames : List FrameInput)
    (s : ScanState) :
    (scanLoop cb₁ s frames).1 = (scanLoop cb₂ s frames).1 ∧
      acceptEvents (scanLoop cb₁ s frames).2 = acceptEvents (scanLoop cb₂ s frames).2 := by
  induction frames generalizing s with
  | nil => exact ⟨rfl, rfl⟩
  | cons f rest ih =>
    by_cases hr : f.readOk
    · obtain ⟨hs, ha⟩ := processObjs_callback_irrelevant cb₁ cb₂ f.objs s
      by_cases hq : f.quit
      · simp only [scanLoop, hr, hq, if_true]
        exact ⟨hs, ha⟩
      · obtain ⟨ihs, iha⟩ := ih (processObjs cb₁ s f.objs).1
        have hsplit₁ : (scanLoop cb₁ s (f :: rest)).2 =
            (processObjs cb₁ s f.objs).2 ++
              (scanLoop cb₁ (processObjs cb₁ s f.objs).1 rest).2 := by
          simp [scanLoop, hr, hq]
        have hsplit₂ : (scanLoop cb₂ s (f :: rest)).2 =
            (processObjs cb₂ s f.objs).2 ++
              (scanLoop cb₂ (processObjs cb₂ s f.objs).1 rest).2 := by
          simp [scanLoop, hr, hq]
        have hstate₁ : (scanLoop cb₁ s (f :: rest)).1 =
            (scanLoop cb₁ (processObjs cb₁ s f.objs).1 rest).1 := by
          simp [scanLoop, hr, hq]
        have hstate₂ : (scanLoop cb₂ s (f :: rest)).1 =
            (scanLoop cb₂ (processObjs cb₂ s f.objs).1 rest).1 := by
          simp [scanLoop, hr, hq]
        constructor
        · rw [hstate₁, hstate₂, ihs, hs]
        · rw [hsplit₁, hsplit₂, acceptEvents_append, acceptEvents_append, ha, iha, hs]
    · simp [scanLoop, hr]

/-- Every single detection emits exactly one draw event, accept or reject. -/
theorem processObj_drawEvents (cb : Callback) (s : ScanState) (obj : DecodedObj) :
    drawEvents (processObj cb s obj).2 = [drawEventFor obj] := by
  by_cases hm : obj.data ∈ s.scanned_codes
  · rw [processObj_reject cb s obj (Or.inl hm), drawEventFor_eq]
    simp [drawEvents]
  by_cases ht : obj.t - s.last_scan_time > 2
  · exact (processObj_accept cb s obj hm ht).2.2
  · rw [processObj_reject cb s obj (Or.inr ht), drawEventFor_eq]
    simp [drawEvents]

/-- Over a frame's detections, the draw events are exactly one per detected
region, in order. -/
theorem processObjs_drawEvents (cb : Callback) (objs : List DecodedObj) (s : ScanState) :
    drawEvents (processObjs cb s objs).2 = objs.map drawEventFor := by
  induction objs generalizing s with
  | nil => rfl
  | cons obj rest ih =>
    have hsplit : (processObjs cb s (obj :: rest)).2 =
        (processObj cb s obj).2 ++ (processObjs cb (processObj cb s obj).1 rest).2 := rfl
    rw [hsplit, drawEvents_append, processObj_drawEvents, ih]
    rfl

/-- C3: for any two codes accepted in the same session, regardless of their
values, their acceptance timestamps differ by at least 2 seconds; the
debounce baseline is the single shared `last_scan_time`, not a per-code one,
so the bound holds across all pairs of accepted codes. -/
theorem scan_global_debounce (camOpened : Bool) (cb : Callback) (frames : List FrameInput) :
    List.Pairwise (fun p q : String × Time => 2 ≤ |q.2 - p.2|)
      (acceptEvents (scanEvents camOpened cb frames)) := by
  cases camOpened with
  | false => simp [scanEvents, acceptEvents]
  | true =>
    have hch := (scanLoop_debounceChain cb frames initState).1
    have hpw := debounceChain_pairwise hch
    rw [List.pairwise_map] at hpw
    refine hpw.imp ?_
    intro p q hpq
    rw [abs_of_pos (by linarith)]
    linarith

/-- C4: the scanner state, the accepted-code list and the acceptance events
never depend on which callback is installed nor on whether its invocations
raise: a raising callback is caught, does not stop the scan, and changes
neither the result list nor any later acceptance. -/
theorem scan_callback_exception_isolated (cb₁ cb₂ : Callback) (s : ScanState)
    (frames : List FrameInput) :
    (scanLoop cb₁ s frames).1 = (scanLoop cb₂ s frames).1 ∧
      acceptEvents (scanLoop cb₁ s frames).2 = acceptEvents (scanLoop cb₂ s frames).2 ∧
      ∀ camOpened : Bool,
        scan_qr_codes camOpened cb₁ frames = scan_qr_codes camOpened cb₂ frames := by
  obtain ⟨hs, ha⟩ := scanLoop_callback_irrelevant cb₁ cb₂ frames s
  refine ⟨hs, ha, ?_⟩
  intro camOpened
  cases camOpened with
  | false => rfl
  | true =>
    simp only [scan_qr_codes, if_true]
    rw [(scanLoop_callback_irrelevant cb₁ cb₂ frames initState).1]

/-- C6: `test_camera` returns `True` exactly when the constructor did not
raise, the device opened, the read did not raise, `ret` was `True` and the
frame was not `None`; every failure mode, including a raise, yields
`False`. -/
theorem test_camera_true_iff (p : CamProbe) :
    (test_camera p).1 = true ↔
      (p.openRaises = false ∧ p.isOpened = true ∧ p.readRaises = false ∧
        p.ret = true ∧ p.frame.isSome = true) := by
  obtain ⟨o, op, rr, r, fr⟩ := p
  cases o <;> cases op <;> cases rr <;> cases r <;> cases fr <;>
    simp [test_camera]

/-- C7 counterexample: on the open-failure path and on the path where
`cap.read()` raises, `cap.release()` is never reached, refuting the claim
that the device is released on every return path. -/
theorem test_camera_no_release_on_open_failure :
    (test_camera ⟨false, false, false, true, some ()⟩).2 = false ∧
    (test_camera ⟨false, true, true, true, some ()⟩).2 = false := by
  decide

/-- C7 (amended): `test_camera` reaches `cap.release()` exactly when the
constructor did not raise, the device opened, and the read did not raise;
in particular the device is not released when it fails to open or when an
exception is raised before the release line. -/
theorem test_camera_release_iff (p : CamProbe) :
    (test_camera p).2 = true ↔
      (p.openRaises = false ∧ p.isOpened = true ∧ p.readRaises = false) := by
  obtain ⟨o, op, rr, r, fr⟩ := p
  cases o <;> cases op <;> cases rr <;> simp [test_camera]

/-- C8: over a frame's detections, whatever the scanner state (so whether
each code is accepted or rejected), exactly one polygon is drawn per
detected region, in order: the convex hull when the detector returned more
than 4 boundary points, otherwise the raw polygon. -/
theorem scan_draws_every_region (cb : Callback) (s : ScanState) (objs : List DecodedObj) :
    drawEvents (processObjs cb s objs).2 =
      objs.map (fun obj =>
        if obj.polygon.length > 4 then Event.draw true obj.polygon
        else Event.draw false obj.polygon) := by
  rw [processObjs_drawEvents]
  rfl

/-- C1 counterexample: code B arrives exactly 2 seconds after the previous
acceptance and is not in the seen set, yet it is rejected (the code compares
with strict `>`), so "accepted iff not seen and at least 2 seconds elapsed"
fails at this input. -/
theorem scan_exact_two_second_gap_rejected :
    ceObjB.data ∉ ceStateB.scanned_codes ∧
    ceObjB.t - ceStateB.last_scan_time ≥ 2 ∧
    scan_qr_codes true none ceFrames = ["A"] ∧
    ceObjB.data ∉ scan_qr_codes true none ceFrames := by
  refine ⟨?_, ?_, ?_, ?_⟩ <;>
    norm_num [ceObjA, ceObjB, ceFrames, ceStateB, scan_qr_codes, scanLoop,
      processObjs, processObj, initState, drawEventFor] <;> decide

/-- C1 (amended): a detected code is accepted (appended to the result list)
iff it is not in the seen set and STRICTLY more than 2 seconds have elapsed
since the last acceptance; on acceptance the seen set, result list and
timestamp are updated together, and otherwise the state is untouched and
only the polygon draw happens. -/
theorem processObj_accept_iff (cb : Callback) (s : ScanState) (obj : DecodedObj) :
    ((processObj cb s obj).1.newly_scanned_data =
        s.newly_scanned_data ++ [obj.data] ↔
      (obj.data ∉ s.scanned_codes ∧ obj.t - s.last_scan_time > 2)) ∧
    (obj.data ∉ s.scanned_codes → obj.t - s.last_scan_time > 2 →
      (processObj cb s obj).1 =
        ⟨obj.data :: s.scanned_codes, obj.t, s.newly_scanned_data ++ [obj.data]⟩) ∧
    (¬ (obj.data ∉ s.scanned_codes ∧ obj.t - s.last_scan_time > 2) →
      processObj cb s obj = (s, [drawEventFor obj])) := by
  have hrej : ¬ (obj.data ∉ s.scanned_codes ∧ obj.t - s.last_scan_time > 2) →
      processObj cb s obj = (s, [drawEventFor obj]) := by
    intro hn
    rcases not_and_or.mp hn with h | h
    · exact processObj_reject cb s obj (Or.inl (not_not.mp h))
    · exact processObj_reject cb s obj (Or.inr h)
  refine ⟨⟨?_, ?_⟩, fun h₁ h₂ => (processObj_accept cb s obj h₁ h₂).1, hrej⟩
  · intro hacc
    by_contra hn
    rw [hrej hn] at hacc
    simpa using congrArg List.length hacc
  · intro ⟨h₁, h₂⟩
    rw [(processObj_accept cb s obj h₁ h₂).1]

/-- Witness for the amended C1 theorem at a concrete accepted input. -/
theorem processObj_accept_iff_witness :
    (processObj none initState ⟨"B", [], 4⟩).1 =
      ⟨"B" :: initState.scanned_codes, 4, initState.newly_scanned_data ++ ["B"]⟩ :=
  (processObj_accept_iff none initState ⟨"B", [], 4⟩).2.1
    (by simp [initState]) (by norm_num [initState])

/-- C2: the list of accepted codes of a session never repeats a code, and
from any state, a code already in the seen set stays in it and is never
appended to the result list again. -/
theorem scan_no_reacceptance (camOpened : Bool) (cb : Callback) (frames : List FrameInput) :
    (scan_qr_codes camOpened cb frames).Nodup ∧
    ∀ (s : ScanState) (a : String), a ∈ s.scanned_codes →
      a ∈ (scanLoop cb s frames).1.scanned_codes ∧
      (scanLoop cb s frames).1.newly_scanned_data.count a =
        s.newly_scanned_data.count a := by
  constructor
  · cases camOpened with
    | false => simp [scan_qr_codes]
    | true =>
      have hg : GoodState initState := by constructor <;> simp [initState]
      simpa [scan_qr_codes] using (scanLoop_goodState cb frames hg).1
  · intro s a ha
    obtain ⟨hmono, l, he, hl⟩ := scanLoop_stateExtends cb frames s
    refine ⟨hmono a ha, ?_⟩
    rw [he, List.count_append]
    have : l.count a = 0 := List.count_eq_zero.mpr (fun hc => hl a hc ha)
    simp [this]

/-- Witness for the no-re-acceptance theorem at a concrete seen code. -/
theorem scan_no_reacceptance_witness :
    "A" ∈ (scanLoop none (⟨["A"], 0, ["A"]⟩ : ScanState) []).1.scanned_codes ∧
    (scanLoop none (⟨["A"], 0, ["A"]⟩ : ScanState) []).1.newly_scanned_data.count "A" =
      (⟨["A"], 0, ["A"]⟩ : ScanState).newly_scanned_data.count "A" :=
  (scan_no_reacceptance true none []).2 ⟨["A"], 0, ["A"]⟩ "A" (by decide)

/-- C5 counterexample: a session in which a frame read fails (its second
iteration has `readOk = false`) yet `scan_qr_codes` returns the non-empty
list of the codes accepted before the failure, refuting "returns an empty
result list" for the read-failure case. -/
theorem scan_readfail_returns_accumulated :
    rfFrames.map FrameInput.readOk = [true, false] ∧
    scan_qr_codes true none rfFrames = ["A"] ∧
    scan_qr_codes true none rfFrames ≠ [] := by
  refine ⟨rfl, ?_, ?_⟩ <;>
    norm_num [rfFrames, scan_qr_codes, scanLoop, processObjs, processObj,
      initState, drawEventFor]

/-- C5 (amended): when the camera fails to open, `scan_qr_codes` returns the
empty list; when a frame read fails, the loop exits at once with the state
accumulated so far (so the result is empty only if nothing had been
accepted, and in particular empty when the first read fails); `test_camera`
returns `False` whenever the device fails to open or the probe's read fails;
none of these failures is escalated. -/
theorem scan_failure_early_exit (cb : Callback) (frames rest : List FrameInput)
    (f : FrameInput) (s : ScanState) (p : CamProbe) :
    scan_qr_codes false cb frames = [] ∧
    (f.readOk = false →
      scanLoop cb s (f :: rest) = (s, []) ∧
      scan_qr_codes true cb (f :: rest) = []) ∧
    (p.isOpened = false → (test_camera p).1 = false) ∧
    (p.ret = false → (test_camera p).1 = false) := by
  refine ⟨rfl, ?_, ?_, ?_⟩
  · intro h
    constructor
    · simp [scanLoop, h]
    · simp [scan_qr_codes, scanLoop, h, initState]
  · intro h
    obtain ⟨o, op, rr, r, fr⟩ := p
    cases o <;> simp_all [test_camera]
  · intro h
    obtain ⟨o, op, rr, r, fr⟩ := p
    cases o <;> cases op <;> cases rr <;> simp_all [test_camera]

/-- Witness for the failure-exit theorem at concrete failing inputs. -/
theorem scan_failure_early_exit_witness :
    scanLoop none (⟨["A"], 0, ["A"]⟩ : ScanState) [⟨false, [], false⟩] =
      ((⟨["A"], 0, ["A"]⟩ : ScanState), []) ∧
    (test_camera ⟨false, false, false, false, none⟩).1 = false :=
  ⟨((scan_failure_early_exit none [] [] ⟨false, [], false⟩ ⟨["A"], 0, ["A"]⟩
      ⟨false, false, false, false, none⟩).2.1 rfl).1,
   (scan_failure_early_exit none [] [] ⟨false, [], false⟩ ⟨["A"], 0, ["A"]⟩
      ⟨false, false, false, false, none⟩).2.2.1 rfl⟩

/-- C9: since `last_scan_time` starts at 0, the debounce never suppresses
the first detection: in any session whose first frame reads fine and whose
first decoded code is examined when the wall clock is past 2 seconds since
the epoch, that code is accepted, and it is the first entry of the result
list. -/
theorem first_detection_always_accepted (cb : Callback) (o : DecodedObj)
    (objs : List DecodedObj) (q : Bool) (rest : List FrameInput) (h : o.t > 2) :
    o.data ∈ scan_qr_codes true cb (⟨true, o :: objs, q⟩ :: rest) ∧
    (scan_qr_codes true cb (⟨true, o :: objs, q⟩ :: rest)).head? = some o.data := by
  have hmem : o.data ∉ initState.scanned_codes := by simp [initState]
  have htime : o.t - initState.last_scan_time > 2 := by
    simpa [initState] using h
  have h₁ := (processObj_accept cb initState o hmem htime).1
  have hext₂ : StateExtends (processObj cb initState o).1
      (processObjs cb (processObj cb initState o).1 objs).1 :=
    processObjs_stateExtends cb objs _
  cases q with
  | true =>
    have hrun : scan_qr_codes true cb (⟨true, o :: objs, true⟩ :: rest) =
        (processObjs cb (processObj cb initState o).1 objs).1.newly_scanned_data := by
      simp [scan_qr_codes, scanLoop, processObjs]
    obtain ⟨_, l, he, _⟩ := hext₂
    rw [hrun, he, h₁]
    simp [initState]
  | false =>
    have hrun : scan_qr_codes true cb (⟨true, o :: objs, false⟩ :: rest) =
        (scanLoop cb (processObjs cb (processObj cb initState o).1 objs).1 rest).1.newly_scanned_data := by
      simp [scan_qr_codes, scanLoop, processObjs]
    have hext₃ := scanLoop_stateExtends cb rest
      (processObjs cb (processObj cb initState o).1 objs).1
    obtain ⟨_, l, he, _⟩ := stateExtends_trans hext₂ hext₃
    rw [hrun, he, h₁]
    simp [initState]

/-- Witness for the first-detection theorem at a concrete session. -/
theorem first_detection_always_accepted_witness :
    "A" ∈ scan_qr_codes true none [⟨true, [⟨"A", [], 3⟩], true⟩] ∧
    (scan_qr_codes true none [⟨true, [⟨"A", [], 3⟩], true⟩]).head? = some "A" :=
  first_detection_always_accepted none ⟨"A", [], 3⟩ [] true []
    (by show (3 : ℚ) > 2; norm_num)

/-- C10: a detected code that is not yet seen but falls inside the debounce
window is a complete no-op: the state is unchanged (not added to the seen
set, not appended to the result list, timestamp untouched) and the only
emitted event is the polygon draw (no acceptance log, no callback, no beep);
the same code detected later, once the window has elapsed, is accepted. -/
theorem debounce_reject_is_noop (cb : Callback) (s : ScanState) (obj : DecodedObj)
    (hmem : obj.data ∉ s.scanned_codes) (ht : ¬ obj.t - s.last_scan_time > 2) :
    processObj cb s obj = (s, [drawEventFor obj]) ∧
    ∀ t' : Time, t' - s.last_scan_time > 2 →
      (processObj cb s ⟨obj.data, obj.polygon, t'⟩).1.newly_scanned_data =
        s.newly_scanned_data ++ [obj.data] := by
  refine ⟨processObj_reject cb s obj (Or.inr ht), ?_⟩
  intro t' ht'
  rw [(processObj_accept cb s ⟨obj.data, obj.polygon, t'⟩ hmem ht').1]

/-- Witness for the debounce no-op theorem at a concrete rejected input. -/
theorem debounce_reject_is_noop_witness :
    processObj none initState ⟨"A", [], 1⟩ = (initState, [Event.draw false []]) ∧
    (processObj none initState ⟨"A", [], 3⟩).1.newly_scanned_data =
      initState.newly_scanned_data ++ ["A"] := by
  have h := debounce_reject_is_noop none initState ⟨"A", [], 1⟩
    (by simp [initState]) (by norm_num [initState])
  exact ⟨by simpa [drawEventFor] using h.1, h.2 3 (by norm_num [initState])⟩
